import Mathlib

/-!
# A formal model of `torcheeg.datasets.module.mne_dataset` (`MNEDataset`)

This file gives a shallow embedding of the MNEDataset module: the trial
chunker, the cache populator, and the dataset read path
(`MNEDataset.__getitem__`), together with theorems settling the spec's
claims about them.

Only `mne_dataset.py` is available as source; the chunking / population
routine (`mne_constructor`) and the base-class read infrastructure
(`BaseDataset`) are consumed through their interfaces.  Definitions for
those parts are modelled from the specification and are marked
`Modelled from the spec:` in their doc comments.  `MNEDataset.__getitem__`
is translated directly from the source.

Machine integers are modelled as `Int` / `Nat` (Python integers are
unbounded, so no wrap-around is needed); fallible operations return
`Except`.
-/

namespace TorchEEG

/-- A 2-D EEG signal block: channels × time, with integer samples. -/
abbrev Signal := List (List Int)

/-- A scalar metadata value.  Python is dynamically typed; the metadata
fields handled by this module are integers and strings. -/
inductive Val
  | vInt (i : Int)
  | vStr (s : String)
deriving DecidableEq

/-- An info / metadata record: an ordered field-name → value mapping
(the shallow embedding of a Python `dict` of scalars). -/
abbrev Record := List (String × Val)

/-- Python `str(...)` applied to a stored scalar value
(`eeg_index = str(info['clip_id'])` in `__getitem__`). -/
def valToString : Val → String
  | Val.vInt i => toString i
  | Val.vStr s => s

/-- Dictionary access `record[key]`: the first binding for `key` wins. -/
def lookupField : Record → String → Option Val
  | [], _ => none
  | (k, v) :: rest, key => if k = key then some v else lookupField rest key

/-- Number of time samples of a trial's signal block (the length of the
time axis of the channels × time array). -/
def sampleCount (s : Signal) : Nat := (s.headD []).length

/-- Error taxonomy of the chunking / population path (spec §7).
`transformError` carries the reporting context: the source trial index
and the chunk's start offset. -/
inductive PopError
  | invalidParameter
  | transformError (trialIndex : Nat) (startOffset : Nat)
deriving DecidableEq

/-- Modelled from the spec (the chunking loop of `mne_constructor`, not
under `src/`): "starting at offset 0, emit windows of width chunk_size,
advancing by `chunk_size - overlap` each step, until the next window
would exceed the trial's sample count; the final partial remainder (if
any) is dropped."  `step = chunk_size - overlap`. -/
def emitWindows (trialLength chunkSize step start : Nat) : List (Nat × Nat) :=
  if h : 0 < step ∧ 0 < chunkSize ∧ start + chunkSize ≤ trialLength then
    (start, start + chunkSize) :: emitWindows trialLength chunkSize step (start + step)
  else []
termination_by trialLength - start
decreasing_by omega

/-- Closed form for the number of windows the chunking loop emits from
offset `start`. -/
def winCount (trialLength chunkSize step start : Nat) : Nat :=
  if start + chunkSize ≤ trialLength then (trialLength - chunkSize - start) / step + 1 else 0

/-- Modelled from the spec (the window layer of the Chunker in
`mne_constructor`, not under `src/`): if `chunk_size ≤ 0` (the
no-segmentation sentinel, default `-1`) emit exactly one window spanning
the full trial; fail with `InvalidParameter` if `overlap ≥ chunk_size`
when `chunk_size > 0`; otherwise run the sliding-window loop. -/
def chunkWindows (trialLength : Nat) (chunkSize overlap : Int) :
    Except PopError (List (Nat × Nat)) :=
  if chunkSize ≤ 0 then Except.ok [(0, trialLength)]
  else if chunkSize ≤ overlap then Except.error PopError.invalidParameter
  else Except.ok (emitWindows trialLength chunkSize.toNat (chunkSize - overlap).toNat 0)

/-- The time-window slice `data[:, start:stop]` of a channels × time block. -/
def sliceWindow (s : Signal) (start stop : Nat) : Signal :=
  s.map (fun row => (row.drop start).take (stop - start))

/-- Channel restriction: a negative `num_channel` is the "all channels"
sentinel (default `-1`); otherwise the first `num_channel` rows are kept. -/
def selectChannels (numChannel : Int) (s : Signal) : Signal :=
  if numChannel < 0 then s else s.take numChannel.toNat

/-- Modelled from the spec (the Chunker of `mne_constructor`, not under
`src/`): produce the finite sequence of (signal slice, start, end)
chunks of one trial, failing with `InvalidParameter` when the channel
subset references an out-of-range index or when the window parameters
are invalid. -/
def chunk (data : Signal) (chunkSize overlap numChannel : Int) :
    Except PopError (List (Signal × Nat × Nat)) :=
  if 0 ≤ numChannel ∧ (data.length : Int) < numChannel then
    Except.error PopError.invalidParameter
  else
    (chunkWindows (sampleCount data) chunkSize overlap).map
      (List.map (fun w => (selectChannels numChannel (sliceWindow data w.1 w.2), w.1, w.2)))

/-! ## Closed form of the chunking loop -/

theorem emitWindows_eq (trialLength chunkSize step : Nat)
    (hcs : 0 < chunkSize) (hstep : 0 < step) :
    ∀ start, emitWindows trialLength chunkSize step start =
      (List.range (winCount trialLength chunkSize step start)).map
        (fun i => (start + i * step, start + i * step + chunkSize)) := by
  intro start
  generalize hm : trialLength - start = m
  induction m using Nat.strong_induction_on generalizing start with
  | _ m ih =>
    rw [emitWindows]
    by_cases hin : start + chunkSize ≤ trialLength
    · rw [dif_pos ⟨hstep, hcs, hin⟩]
      have hlt : trialLength - (start + step) < m := by omega
      rw [ih _ hlt (start + step) rfl]
      have hcount : winCount trialLength chunkSize step start =
          winCount trialLength chunkSize step (start + step) + 1 := by
        unfold winCount
        by_cases hin2 : start + step + chunkSize ≤ trialLength
        · rw [if_pos hin, if_pos hin2]
          have hble : step ≤ trialLength - chunkSize - start := by omega
          have hdiv := Nat.div_eq_sub_div hstep hble
          have harg : trialLength - chunkSize - start - step =
              trialLength - chunkSize - (start + step) := by omega
          rw [harg] at hdiv
          omega
        · rw [if_pos hin, if_neg hin2]
          have : trialLength - chunkSize - start < step := by omega
          rw [Nat.div_eq_of_lt this]
      rw [hcount, List.range_succ_eq_map, List.map_cons, List.map_map]
      simp only [Nat.zero_mul, Nat.add_zero]
      congr 1
      apply List.map_congr_left
      intro i _
      simp only [Function.comp_apply, Nat.succ_eq_add_one, Prod.mk.injEq]
      constructor <;> ring
    · rw [dif_neg (by omega)]
      unfold winCount
      rw [if_neg hin]
      simp

/-! ## Claim C2: every emitted window is in bounds and of full width -/

/-- **C2**: for every trial length and every valid parameter pair with
`chunk_size > 0` and `0 ≤ overlap < chunk_size`, every window emitted by
the chunker satisfies `0 ≤ start < end ≤ trial_length` and
`end - start == chunk_size`; no partial or out-of-bounds window is ever
emitted. -/
theorem chunkWindows_inbounds (trialLength : Nat) (chunkSize overlap : Int)
    (hcs : 0 < chunkSize) (hov : 0 ≤ overlap) (hlt : overlap < chunkSize)
    (ws : List (Nat × Nat)) (hw : chunkWindows trialLength chunkSize overlap = Except.ok ws) :
    ∀ se ∈ ws, 0 ≤ se.1 ∧ se.1 < se.2 ∧ se.2 ≤ trialLength ∧
      ((se.2 : Int) - (se.1 : Int) = chunkSize) := by
  have hstep : 0 < (chunkSize - overlap).toNat := by omega
  have hcn : 0 < chunkSize.toNat := by omega
  unfold chunkWindows at hw
  rw [if_neg (by omega), if_neg (by omega)] at hw
  have hws : ws = emitWindows trialLength chunkSize.toNat (chunkSize - overlap).toNat 0 := by
    exact (Except.ok.injEq _ _ ▸ hw.symm)
  rw [hws, emitWindows_eq _ _ _ hcn hstep 0]
  intro se hse
  rw [List.mem_map] at hse
  obtain ⟨i, hi, hfe⟩ := hse
  rw [List.mem_range] at hi
  subst hfe
  simp only [Nat.zero_add]
  unfold winCount at hi
  by_cases hin : 0 + chunkSize.toNat ≤ trialLength
  · rw [if_pos hin] at hi
    have hile : i ≤ (trialLength - chunkSize.toNat - 0) / (chunkSize - overlap).toNat := by omega
    have := (Nat.le_div_iff_mul_le hstep).mp hile
    refine ⟨Nat.zero_le _, by omega, by omega, by omega⟩
  · rw [if_neg hin] at hi
    omega

/-- Witness for C2 at a concrete input: trial length 10, chunk size 4,
overlap 2. -/
theorem chunkWindows_inbounds_witness :
    (0 : Int) < 4 ∧ (0 : Int) ≤ 2 ∧ (2 : Int) < 4 ∧
    chunkWindows 10 4 2 = Except.ok [(0, 4), (2, 6), (4, 8), (6, 10)] ∧
    (∀ se ∈ [((0 : Nat), (4 : Nat)), (2, 6), (4, 8), (6, 10)],
      0 ≤ se.1 ∧ se.1 < se.2 ∧ se.2 ≤ 10 ∧ ((se.2 : Int) - (se.1 : Int) = 4)) := by
  have hw : chunkWindows 10 4 2 = Except.ok [(0, 4), (2, 6), (4, 8), (6, 10)] := by
    unfold chunkWindows
    rw [if_neg (by omega), if_neg (by omega)]
    have h1 : (4 : Int).toNat = 4 := rfl
    have h2 : ((4 : Int) - 2).toNat = 2 := by decide
    rw [h1, h2, emitWindows_eq 10 4 2 (by norm_num) (by norm_num) 0]
    rfl
  exact ⟨by norm_num, by norm_num, by norm_num, hw,
    chunkWindows_inbounds 10 4 2 (by norm_num) (by norm_num) (by norm_num) _ hw⟩

/-! ## Claim C3: the window layout of the sliding chunker -/

/-- **C3 (amended)**: for every trial, chunking with `chunk_size > 0` and
`0 ≤ overlap < chunk_size` emits windows starting at 0 and advancing by
`chunk_size - overlap` per step, dropping the final partial remainder;
a trial of length `L` with `chunk_size=160`, `overlap=0` yields
`L / 160` windows with starts `0, 160, 320, ...`; and a trial of length
500 with `chunk_size=160`, `overlap=40` yields exactly the windows
starting at 0, 120, 240 (the window at 360 would end at 520 > 500 and is
dropped as a partial remainder). -/
theorem chunkWindows_layout :
    (∀ (trialLength : Nat) (chunkSize overlap : Int),
        0 < chunkSize → 0 ≤ overlap → overlap < chunkSize →
        chunkWindows trialLength chunkSize overlap =
          Except.ok ((List.range
              (winCount trialLength chunkSize.toNat (chunkSize - overlap).toNat 0)).map
            (fun i => (i * (chunkSize - overlap).toNat,
                       i * (chunkSize - overlap).toNat + chunkSize.toNat)))) ∧
    (∀ trialLength : Nat,
        (chunkWindows trialLength 160 0).map (List.map Prod.fst) =
          Except.ok ((List.range (trialLength / 160)).map (fun i => i * 160))) ∧
    (chunkWindows 500 160 40).map (List.map Prod.fst) = Except.ok [0, 120, 240] := by
  have hgen : ∀ (trialLength : Nat) (chunkSize overlap : Int),
      0 < chunkSize → 0 ≤ overlap → overlap < chunkSize →
      chunkWindows trialLength chunkSize overlap =
        Except.ok ((List.range
            (winCount trialLength chunkSize.toNat (chunkSize - overlap).toNat 0)).map
          (fun i => (i * (chunkSize - overlap).toNat,
                     i * (chunkSize - overlap).toNat + chunkSize.toNat))) := by
    intro trialLength chunkSize overlap hcs hov hlt
    unfold chunkWindows
    rw [if_neg (by omega), if_neg (by omega)]
    rw [emitWindows_eq trialLength chunkSize.toNat (chunkSize - overlap).toNat
      (by omega) (by omega) 0]
    simp
  refine ⟨hgen, ?_, ?_⟩
  · intro trialLength
    rw [hgen trialLength 160 0 (by norm_num) (by norm_num) (by norm_num)]
    have h1 : (160 : Int).toNat = 160 := rfl
    have h2 : ((160 : Int) - 0).toNat = 160 := by decide
    rw [h1, h2]
    have hcount : winCount trialLength 160 160 0 = trialLength / 160 := by
      unfold winCount
      by_cases hin : 0 + 160 ≤ trialLength
      · rw [if_pos hin]
        have := Nat.div_eq_sub_div (show 0 < 160 by norm_num)
          (show 160 ≤ trialLength by omega)
        omega
      · rw [if_neg hin, Nat.div_eq_of_lt (by omega)]
    rw [hcount]
    simp [Except.map, List.map_map]
  · rw [hgen 500 160 40 (by norm_num) (by norm_num) (by norm_num)]
    rfl

/-- Counterexample for C3 as stated: with trial length 500,
`chunk_size=160`, `overlap=40`, the emitted window starts are
`[0, 120, 240]`, not `[0, 120, 240, 360]` as the claim asserts. -/
theorem chunkWindows_500_starts :
    (chunkWindows 500 160 40).map (List.map Prod.fst) = Except.ok [0, 120, 240] ∧
    (Except.ok [0, 120, 240] : Except PopError (List Nat)) ≠ Except.ok [0, 120, 240, 360] := by
  constructor
  · have h2 : ((160 : Int) - 40).toNat = 120 := by decide
    unfold chunkWindows
    rw [if_neg (by omega), if_neg (by omega)]
    rw [show (160 : Int).toNat = 160 from rfl, h2,
      emitWindows_eq 500 160 120 (by norm_num) (by norm_num) 0]
    rfl
  · intro hcontra
    exact absurd (Except.ok.inj hcontra) (by decide)

/-- Witness for C3 at a concrete input: the general layout clause applied
at trial length 10, chunk size 4, overlap 2. -/
theorem chunkWindows_layout_witness :
    chunkWindows 10 4 2 = Except.ok ((List.range (winCount 10 4 2 0)).map
      (fun i => (i * 2, i * 2 + 4))) := by
  have h := chunkWindows_layout.1 10 4 2 (by norm_num) (by norm_num) (by norm_num)
  have h1 : (4 : Int).toNat = 4 := rfl
  have h2 : ((4 : Int) - 2).toNat = 2 := by decide
  rw [h1, h2] at h
  exact h

/-! ## Claim C4: overlap ≥ chunk_size is rejected up front -/

/-- **C4**: for every input with `chunk_size > 0` and
`overlap ≥ chunk_size` (including `overlap == chunk_size`), the chunker
fails fast with an `InvalidParameter` error and emits no chunk. -/
theorem chunker_rejects_overlap (trialLength : Nat) (data : Signal)
    (chunkSize overlap numChannel : Int)
    (hcs : 0 < chunkSize) (hov : chunkSize ≤ overlap) :
    chunkWindows trialLength chunkSize overlap = Except.error PopError.invalidParameter ∧
    chunk data chunkSize overlap numChannel = Except.error PopError.invalidParameter := by
  have hwin : ∀ L : Nat, chunkWindows L chunkSize overlap =
      Except.error PopError.invalidParameter := by
    intro L
    unfold chunkWindows
    rw [if_neg (by omega), if_pos hov]
  refine ⟨hwin trialLength, ?_⟩
  unfold chunk
  by_cases hch : 0 ≤ numChannel ∧ (data.length : Int) < numChannel
  · rw [if_pos hch]
  · rw [if_neg hch, hwin (sampleCount data)]
    rfl

/-- Witness for C4 at a concrete input: `chunk_size = overlap = 5` (the
boundary case). -/
theorem chunker_rejects_overlap_witness :
    chunkWindows 100 5 5 = Except.error PopError.invalidParameter ∧
    chunk [[1, 2, 3]] 5 5 (-1) = Except.error PopError.invalidParameter :=
  chunker_rejects_overlap 100 [[1, 2, 3]] 5 5 (-1) (by norm_num) (by norm_num)

/-! ## Claim C5: chunk_size ≤ 0 yields one full-extent chunk -/

/-- **C5**: for every trial, when `chunk_size ≤ 0` (the no-segmentation
sentinel, default `-1`) the chunker emits exactly one chunk whose window
spans the full time extent of the trial. -/
theorem chunker_sentinel (trialLength : Nat) (data : Signal)
    (chunkSize overlap numChannel : Int) (hcs : chunkSize ≤ 0)
    (hch : numChannel < 0 ∨ numChannel ≤ (data.length : Int)) :
    chunkWindows trialLength chunkSize overlap = Except.ok [(0, trialLength)] ∧
    chunk data chunkSize overlap numChannel =
      Except.ok [(selectChannels numChannel (sliceWindow data 0 (sampleCount data)),
        0, sampleCount data)] := by
  have hwin : ∀ L : Nat, chunkWindows L chunkSize overlap = Except.ok [(0, L)] := by
    intro L
    unfold chunkWindows
    rw [if_pos hcs]
  refine ⟨hwin trialLength, ?_⟩
  unfold chunk
  rw [if_neg (by omega), hwin (sampleCount data)]
  rfl

/-- Witness for C5 at a concrete input: `chunk_size = -1` on a 2-channel,
3-sample trial. -/
theorem chunker_sentinel_witness :
    chunkWindows 3 (-1) 0 = Except.ok [(0, 3)] ∧
    chunk [[1, 2, 3], [4, 5, 6]] (-1) 0 (-1) =
      Except.ok [(selectChannels (-1) (sliceWindow [[1, 2, 3], [4, 5, 6]] 0
        (sampleCount [[1, 2, 3], [4, 5, 6]])), 0, sampleCount [[1, 2, 3], [4, 5, 6]])] :=
  chunker_sentinel 3 [[1, 2, 3], [4, 5, 6]] (-1) 0 (-1) (by norm_num)
    (Or.inl (by norm_num))

/-! ## The cache populator (modelled from the spec) -/

/-- Modelled from the spec: clip identifiers are "monotonically assigned
strings unique across the whole dataset instance" (`mne_constructor` is
not under `src/`).  The spec fixes uniqueness and the monotone
assignment order but not the rendering; the model uses the injective
rendering `n ↦ 'c' repeated (n+1) times`. -/
def clipName (n : Nat) : String := String.mk (List.replicate (n + 1) 'c')

theorem clipName_injective : Function.Injective clipName := by
  intro a b hab
  have hdata : List.replicate (a + 1) 'c' = List.replicate (b + 1) 'c' := by
    injection hab
  have := congrArg List.length hdata
  simpa using this

/-- One persisted Cache Record: clip identifier, signal payload, and the
label record (the trial's metadata merged with the chunk annotations). -/
structure CacheRecord where
  clipId : String
  signal : Signal
  label : Record
deriving DecidableEq

/-- The persistent store: an ordered collection of Cache Records plus
the atomic "complete" marker. -/
structure Store where
  records : List CacheRecord
  complete : Bool
deriving DecidableEq

def emptyStore : Store := { records := [], complete := false }

/-- Storage read `read_eeg(key)`: the record stored under the given clip
identifier. -/
def Store.readEeg (st : Store) (key : String) : Option Signal :=
  (st.records.find? (fun r => r.clipId == key)).map (fun r => r.signal)

/-- Storage read of the whole (signal, label) pair for a clip identifier. -/
def Store.readRecord (st : Store) (key : String) : Option (Signal × Record) :=
  (st.records.find? (fun r => r.clipId == key)).map (fun r => (r.signal, r.label))

/-- The optional offline transform: a pure function allowed to fail with
a `TransformError` (modelled by `Except Unit`); `none` is the identity. -/
def applyOffline (tf : Option (Signal → Except Unit Signal)) (s : Signal) :
    Except Unit Signal :=
  match tf with
  | none => Except.ok s
  | some f => f s

/-- Modelled from the spec: the Cache Record written for one chunk; its
label record is the trial's metadata merged with the per-chunk
annotations (clip identifier and window offsets). -/
def chunkRecord (counter : Nat) (meta : Record) (sig : Signal) (start stop : Nat) :
    CacheRecord :=
  { clipId := clipName counter
    signal := sig
    label := ("clip_id", Val.vStr (clipName counter)) ::
      ("start_at", Val.vInt (start : Int)) :: ("end_at", Val.vInt (stop : Int)) :: meta }

/-- Modelled from the spec: process the chunk sequence of one trial —
apply the offline transform, assign the next clip identifiers, write the
Cache Records.  A transform failure aborts the failing chunk and stops
the run, reported with (trial index, chunk start offset) context, while
the records already written stay.  Returns the written records, the next
free counter, and the error, if any. -/
def processChunks (tf : Option (Signal → Except Unit Signal)) (trialIndex : Nat)
    (meta : Record) (chunks : List (Signal × Nat × Nat)) (counter : Nat) :
    List CacheRecord × Nat × Option PopError :=
  match chunks with
  | [] => ([], counter, none)
  | c :: rest =>
    match applyOffline tf c.1 with
    | Except.error _ => ([], counter, some (PopError.transformError trialIndex c.2.1))
    | Except.ok sig =>
      let r := chunkRecord counter meta sig c.2.1 c.2.2
      let out := processChunks tf trialIndex meta rest (counter + 1)
      (r :: out.1, out.2.1, out.2.2)

/-- Modelled from the spec: drive the Chunker over each (trial index,
trial, metadata) work item in order, stopping at the first failure but
keeping the records already written. -/
def processTrials (tf : Option (Signal → Except Unit Signal))
    (chunkSize overlap numChannel : Int)
    (items : List (Nat × Signal × Record)) (counter : Nat) :
    List CacheRecord × Nat × Option PopError :=
  match items with
  | [] => ([], counter, none)
  | it :: rest =>
    match chunk it.2.1 chunkSize overlap numChannel with
    | Except.error e => ([], counter, some e)
    | Except.ok cs =>
      let out := processChunks tf it.1 it.2.2 cs counter
      match out.2.2 with
      | some e => (out.1, out.2.1, some e)
      | none =>
        let out2 := processTrials tf chunkSize overlap numChannel rest out.2.1
        (out.1 ++ out2.1, out2.2.1, out2.2.2)

/-- Take every `w`-th element of a list, starting with the head. -/
def everyNth {α : Type} (w : Nat) : List α → List α
  | [] => []
  | x :: xs => x :: everyNth w (xs.drop (w - 1))
termination_by l => l.length
decreasing_by simp [List.length_drop]; omega

/-- Modelled from the spec: the coordinator assigns the work items to
`workerCount` workers round-robin and the single writer collects the
completed records worker by worker; with `workerCount ≤ 1` execution is
single-threaded and keeps the input order. -/
def roundRobin {α : Type} (w : Nat) (l : List α) : List α :=
  if w ≤ 1 then l
  else ((List.range w).map (fun i => everyNth w (l.drop i))).flatten

/-- Modelled from the spec: up-front parameter validation — an
`InvalidParameter` run "fails fast before any work begins" on a bad
chunk_size/overlap pair or on a channel subset out of range for any
trial. -/
def validParams (trials : List Signal) (chunkSize overlap numChannel : Int) : Bool :=
  (decide (chunkSize ≤ 0) || decide (overlap < chunkSize)) &&
  trials.all (fun t => decide (numChannel < 0) || decide (numChannel ≤ (t.length : Int)))

/-- Modelled from the spec: the Cache Populator.  It rejects mismatched
input lengths, is a no-op on a store already marked Complete, validates
the chunking parameters before any work, then chunks every trial,
applies the offline transform and writes the Cache Records, finally
setting the complete marker.  A failing run keeps the records already
written and leaves the store not Complete. -/
def populate (trials : List Signal) (metas : List Record)
    (chunkSize overlap numChannel : Int)
    (tf : Option (Signal → Except Unit Signal)) (workerCount : Nat)
    (store : Store) : Store × Except PopError Nat :=
  if trials.length ≠ metas.length then (store, Except.error PopError.invalidParameter)
  else if store.complete then (store, Except.ok store.records.length)
  else if validParams trials chunkSize overlap numChannel then
    let items := roundRobin workerCount (trials.zip metas).enum
    let out := processTrials tf chunkSize overlap numChannel items 0
    match out.2.2 with
    | some e => ({ records := out.1, complete := false }, Except.error e)
    | none => ({ records := out.1, complete := true }, Except.ok out.1.length)
  else (store, Except.error PopError.invalidParameter)

/-! ## Claim C6: mismatched input lengths fail fast -/

/-- **C6**: for every pair of input sequences whose lengths differ,
populate fails with an `InvalidParameter` error before any chunking,
transforming or writing takes place: the store is returned unchanged. -/
theorem populate_length_mismatch (trials : List Signal) (metas : List Record)
    (chunkSize overlap numChannel : Int)
    (tf : Option (Signal → Except Unit Signal)) (workerCount : Nat) (store : Store)
    (h : trials.length ≠ metas.length) :
    populate trials metas chunkSize overlap numChannel tf workerCount store =
      (store, Except.error PopError.invalidParameter) := by
  unfold populate
  rw [if_pos h]

/-- Witness for C6 at a concrete input: two trials, one metadata record. -/
theorem populate_length_mismatch_witness :
    populate [[[1, 2]], [[3, 4]]] [[("subject", Val.vInt 1)]] (-1) 0 (-1) none 0 emptyStore =
      (emptyStore, Except.error PopError.invalidParameter) :=
  populate_length_mismatch _ _ _ _ _ _ _ _ (by decide)

/-! ## Claim C7: populate is a no-op on a Complete store -/

/-- **C7**: for every store already marked Complete (and well-formed
inputs of equal length), re-running populate against it is a no-op that
returns the existing record count; the store — its record count and
every clip identifier — is unchanged. -/
theorem populate_complete_noop (trials : List Signal) (metas : List Record)
    (chunkSize overlap numChannel : Int)
    (tf : Option (Signal → Except Unit Signal)) (workerCount : Nat) (store : Store)
    (hlen : trials.length = metas.length) (hc : store.complete = true) :
    populate trials metas chunkSize overlap numChannel tf workerCount store =
      (store, Except.ok store.records.length) := by
  unfold populate
  rw [if_neg (fun hne => hne hlen), if_pos hc]

/-- A concrete complete one-record store, used by the C7 witness. -/
def sampleCompleteStore : Store :=
  ⟨[⟨"c", [[1, 2]], [("clip_id", Val.vStr "c")]⟩], true⟩

/-- Witness for C7 at a concrete input: a complete one-record store. -/
theorem populate_complete_noop_witness :
    populate [[[1, 2]]] [[("subject", Val.vInt 1)]] (-1) 0 (-1) none 0
      sampleCompleteStore = (sampleCompleteStore, Except.ok 1) := by
  simpa using populate_complete_noop [[[1, 2]]] [[("subject", Val.vInt 1)]]
    (-1) 0 (-1) none 0 sampleCompleteStore (by decide) (by decide)

/-! ## Structural invariants of a populate run -/

/-- Processing one trial's chunks advances the counter by exactly the
number of records written, and the written records carry the clip
identifiers `clipName counter, clipName (counter+1), ...` in order
(whether or not the trial ends in a transform failure). -/
theorem processChunks_ids (tf : Option (Signal → Except Unit Signal)) (ti : Nat)
    (meta : Record) :
    ∀ (chunks : List (Signal × Nat × Nat)) (counter : Nat),
      (processChunks tf ti meta chunks counter).2.1 =
        counter + (processChunks tf ti meta chunks counter).1.length ∧
      (processChunks tf ti meta chunks counter).1.map (fun r => r.clipId) =
        (List.range' counter (processChunks tf ti meta chunks counter).1.length).map
          clipName := by
  intro chunks
  induction chunks with
  | nil => intro counter; simp [processChunks]
  | cons c rest ih =>
    intro counter
    cases h : applyOffline tf c.1 with
    | error e => simp [processChunks, h]
    | ok sig =>
      obtain ⟨ih1, ih2⟩ := ih (counter + 1)
      simp only [processChunks, h]
      refine ⟨by simp only [List.length_cons]; omega, ?_⟩
      simp only [List.map_cons, List.length_cons, List.range'_succ, ih2, chunkRecord]

/-- The same invariant for a whole work-item list. -/
theorem processTrials_ids (tf : Option (Signal → Except Unit Signal))
    (chunkSize overlap numChannel : Int) :
    ∀ (items : List (Nat × Signal × Record)) (counter : Nat),
      (processTrials tf chunkSize overlap numChannel items counter).2.1 =
        counter + (processTrials tf chunkSize overlap numChannel items counter).1.length ∧
      (processTrials tf chunkSize overlap numChannel items counter).1.map
          (fun r => r.clipId) =
        (List.range' counter
          (processTrials tf chunkSize overlap numChannel items counter).1.length).map
          clipName := by
  intro items
  induction items with
  | nil => intro counter; simp [processTrials]
  | cons it rest ih =>
    intro counter
    cases hc : chunk it.2.1 chunkSize overlap numChannel with
    | error e => simp [processTrials, hc]
    | ok chs =>
      obtain ⟨h1, h2⟩ := processChunks_ids tf it.1 it.2.2 chs counter
      cases herr : (processChunks tf it.1 it.2.2 chs counter).2.2 with
      | some e =>
        simp only [processTrials, hc, herr]
        exact ⟨h1, h2⟩
      | none =>
        obtain ⟨g1, g2⟩ := ih (processChunks tf it.1 it.2.2 chs counter).2.1
        simp only [processTrials, hc, herr]
        constructor
        · simp only [List.length_append]; omega
        · rw [List.map_append, h2, g2, h1, ← List.map_append]
          congr 1
          have happ := List.range'_append counter
            (processChunks tf it.1 it.2.2 chs counter).1.length
            (processTrials tf chunkSize overlap numChannel rest
              (counter + (processChunks tf it.1 it.2.2 chs counter).1.length)).1.length 1
          simp only [Nat.one_mul, List.length_append] at happ ⊢
          rw [happ, Nat.add_comm]

/-- Every record written for one trial carries its own clip identifier
as the first field of its label record. -/
theorem processChunks_label (tf : Option (Signal → Except Unit Signal)) (ti : Nat)
    (meta : Record) :
    ∀ (chunks : List (Signal × Nat × Nat)) (counter : Nat),
      ∀ r ∈ (processChunks tf ti meta chunks counter).1,
        ∃ rest, r.label = ("clip_id", Val.vStr r.clipId) :: rest := by
  intro chunks
  induction chunks with
  | nil => intro counter r hr; simp [processChunks] at hr
  | cons c rest ih =>
    intro counter r hr
    cases h : applyOffline tf c.1 with
    | error e => simp [processChunks, h] at hr
    | ok sig =>
      simp only [processChunks, h, List.mem_cons] at hr
      rcases hr with hr | hr
      · subst hr
        exact ⟨_, rfl⟩
      · exact ih (counter + 1) r hr

/-- Every record written by a run carries its own clip identifier as the
first field of its label record. -/
theorem processTrials_label (tf : Option (Signal → Except Unit Signal))
    (chunkSize overlap numChannel : Int) :
    ∀ (items : List (Nat × Signal × Record)) (counter : Nat),
      ∀ r ∈ (processTrials tf chunkSize overlap numChannel items counter).1,
        ∃ rest, r.label = ("clip_id", Val.vStr r.clipId) :: rest := by
  intro items
  induction items with
  | nil => intro counter r hr; simp [processTrials] at hr
  | cons it rest ih =>
    intro counter r hr
    cases hc : chunk it.2.1 chunkSize overlap numChannel with
    | error e => simp [processTrials, hc] at hr
    | ok chs =>
      cases herr : (processChunks tf it.1 it.2.2 chs counter).2.2 with
      | some e =>
        simp only [processTrials, hc, herr] at hr
        exact processChunks_label tf it.1 it.2.2 chs counter r hr
      | none =>
        simp only [processTrials, hc, herr, List.mem_append] at hr
        rcases hr with hr | hr
        · exact processChunks_label tf it.1 it.2.2 chs counter r hr
        · exact ih _ r hr

/-- In a record list with pairwise-distinct clip identifiers, looking a
member's clip identifier up finds exactly that member. -/
theorem find?_clipId_self :
    ∀ (rs : List CacheRecord), (rs.map (fun r => r.clipId)).Nodup →
      ∀ r ∈ rs, rs.find? (fun x => x.clipId == r.clipId) = some r := by
  intro rs
  induction rs with
  | nil => intro _ r hr; cases hr
  | cons x xs ih =>
    intro hnd r hr
    rw [List.map_cons, List.nodup_cons] at hnd
    rcases List.mem_cons.mp hr with h | h
    · subst h
      rw [List.find?_cons_of_pos _ (by simp)]
    · have hne : x.clipId ≠ r.clipId := by
        intro he
        exact hnd.1 (he ▸ List.mem_map_of_mem (fun r => r.clipId) h)
      rw [List.find?_cons_of_neg _ (by simp [hne]), ih hnd.2 r h]

/-- The clip identifiers assigned by a run (from a fresh counter) are
pairwise distinct. -/
theorem processTrials_nodup (tf : Option (Signal → Except Unit Signal))
    (chunkSize overlap numChannel : Int) (items : List (Nat × Signal × Record)) :
    ((processTrials tf chunkSize overlap numChannel items 0).1.map
      (fun r => r.clipId)).Nodup := by
  rw [(processTrials_ids tf chunkSize overlap numChannel items 0).2]
  exact (List.nodup_range' 0 _).map clipName_injective

/-! ## Failure characterization -/

/-- The chunker's only error is `InvalidParameter`. -/
theorem chunk_error_invalid (data : Signal) (chunkSize overlap numChannel : Int)
    (e : PopError) (h : chunk data chunkSize overlap numChannel = Except.error e) :
    e = PopError.invalidParameter := by
  unfold chunk at h
  by_cases hch : 0 ≤ numChannel ∧ (data.length : Int) < numChannel
  · rw [if_pos hch] at h
    exact (Except.error.inj h).symm
  · rw [if_neg hch] at h
    unfold chunkWindows at h
    by_cases h1 : chunkSize ≤ 0
    · rw [if_pos h1] at h
      simp [Except.map] at h
    · rw [if_neg h1] at h
      by_cases h2 : chunkSize ≤ overlap
      · rw [if_pos h2] at h
        simp only [Except.map] at h
        exact (Except.error.inj h).symm
      · rw [if_neg h2] at h
        simp [Except.map] at h

/-- A transform error reported by `processChunks` names the trial it was
given and the start offset of an actual chunk whose transform fails. -/
theorem processChunks_error (tf : Option (Signal → Except Unit Signal)) (ti : Nat)
    (meta : Record) :
    ∀ (chunks : List (Signal × Nat × Nat)) (counter : Nat) (i off : Nat),
      (processChunks tf ti meta chunks counter).2.2 =
        some (PopError.transformError i off) →
      i = ti ∧ ∃ c ∈ chunks, c.2.1 = off ∧ applyOffline tf c.1 = Except.error () := by
  intro chunks
  induction chunks with
  | nil => intro counter i off h; simp [processChunks] at h
  | cons c rest ih =>
    intro counter i off h
    cases hap : applyOffline tf c.1 with
    | error e =>
      simp only [processChunks, hap, Option.some.injEq] at h
      obtain ⟨hi, hoff⟩ := PopError.transformError.inj h.symm
      exact ⟨hi, c, List.mem_cons_self c rest, hoff.symm, by cases e; exact hap⟩
    | ok sig =>
      simp only [processChunks, hap] at h
      obtain ⟨hi, c', hc', hoff, hfail⟩ := ih (counter + 1) i off h
      exact ⟨hi, c', List.mem_cons_of_mem c hc', hoff, hfail⟩

/-- A transform error reported by a run names a work item actually in
the run and a failing chunk of that item's trial, with the chunk's start
offset as context. -/
theorem processTrials_error (tf : Option (Signal → Except Unit Signal))
    (chunkSize overlap numChannel : Int) :
    ∀ (items : List (Nat × Signal × Record)) (counter : Nat) (i off : Nat),
      (processTrials tf chunkSize overlap numChannel items counter).2.2 =
        some (PopError.transformError i off) →
      ∃ it ∈ items, it.1 = i ∧
        ∃ chs, chunk it.2.1 chunkSize overlap numChannel = Except.ok chs ∧
          ∃ c ∈ chs, c.2.1 = off ∧ applyOffline tf c.1 = Except.error () := by
  intro items
  induction items with
  | nil => intro counter i off h; simp [processTrials] at h
  | cons it rest ih =>
    intro counter i off h
    cases hc : chunk it.2.1 chunkSize overlap numChannel with
    | error e =>
      simp only [processTrials, hc, Option.some.injEq] at h
      have := chunk_error_invalid it.2.1 chunkSize overlap numChannel e hc
      subst this
      exact absurd h.symm (by intro hcontra; cases hcontra)
    | ok chs =>
      cases herr : (processChunks tf it.1 it.2.2 chs counter).2.2 with
      | some e =>
        simp only [processTrials, hc, herr, Option.some.injEq] at h
        subst h
        obtain ⟨hi, c, hcm, hoff, hfail⟩ :=
          processChunks_error tf it.1 it.2.2 chs counter i off herr
        exact ⟨it, List.mem_cons_self it rest, hi.symm, chs, hc, c, hcm, hoff, hfail⟩
      | none =>
        simp only [processTrials, hc, herr] at h
        obtain ⟨it', hit', hi, chs', hok', hrest⟩ := ih _ i off h
        exact ⟨it', List.mem_cons_of_mem it hit', hi, chs', hok', hrest⟩

/-! ## The worker assignment is a permutation of the input -/

theorem everyNth_nil {α : Type} (w : Nat) : everyNth w ([] : List α) = [] := by
  rw [everyNth]

theorem everyNth_cons {α : Type} (w : Nat) (x : α) (xs : List α) :
    everyNth w (x :: xs) = x :: everyNth w (xs.drop (w - 1)) := by
  rw [everyNth]

/-- Joining the `k+1` round-robin shards of a list is a permutation of
the list. -/
theorem everyNth_shards_perm {α : Type} (k : Nat) :
    ∀ l : List α,
      List.Perm (((List.range (k + 1)).map (fun i => everyNth (k + 1) (l.drop i))).flatten)
        l := by
  intro l
  induction l with
  | nil =>
    simp [everyNth_nil]
  | cons x xs ih =>
    rw [List.range_succ_eq_map, List.map_cons, List.flatten_cons]
    simp only [List.map_map, Function.comp, List.drop_succ_cons, List.drop_zero]
    rw [everyNth_cons]
    simp only [Nat.add_sub_cancel, List.cons_append]
    refine List.Perm.cons x ?_
    have hIH := ih
    rw [List.range_succ, List.map_append, List.flatten_append] at hIH
    simp only [List.map_cons, List.map_nil, List.flatten_cons, List.flatten_nil,
      List.append_nil] at hIH
    exact (List.perm_append_comm).trans hIH

/-- The coordinator's round-robin work order is a permutation of the
input order. -/
theorem roundRobin_perm {α : Type} (w : Nat) (l : List α) :
    List.Perm (roundRobin w l) l := by
  unfold roundRobin
  by_cases hw : w ≤ 1
  · rw [if_pos hw]
  · rw [if_neg hw]
    obtain ⟨k, rfl⟩ : ∃ k, w = k + 1 := ⟨w - 1, by omega⟩
    exact everyNth_shards_perm k l

/-! ## Claim C9: a transform failure aborts only its chunk -/

/-- **C9**: if the offline transform fails while processing one trial's
chunk, the populate run fails with a `TransformError` that reports the
failing trial's index and the failing chunk's start offset — an actual
chunk of that trial on which the transform fails — while every record
already durably written stays valid and readable from the resulting
store (no rollback, no corruption); the store is left not-Complete for
resumption. -/
theorem populate_transform_failure (trials : List Signal) (metas : List Record)
    (chunkSize overlap numChannel : Int)
    (tf : Option (Signal → Except Unit Signal)) (workerCount : Nat)
    (st : Store) (i off : Nat)
    (hp : populate trials metas chunkSize overlap numChannel tf workerCount emptyStore =
      (st, Except.error (PopError.transformError i off))) :
    st.complete = false ∧
    (∀ r ∈ st.records, st.readRecord r.clipId = some (r.signal, r.label)) ∧
    ∃ t m, (i, (t, m)) ∈ (trials.zip metas).enum ∧
      ∃ chs, chunk t chunkSize overlap numChannel = Except.ok chs ∧
        ∃ c ∈ chs, c.2.1 = off ∧ applyOffline tf c.1 = Except.error () := by
  unfold populate at hp
  by_cases hlen : trials.length ≠ metas.length
  · rw [if_pos hlen] at hp
    cases (Except.error.inj (congrArg Prod.snd hp))
  rw [if_neg hlen] at hp
  rw [if_neg (by intro hcontra; exact Bool.noConfusion hcontra)] at hp
  by_cases hval : validParams trials chunkSize overlap numChannel = true
  swap
  · rw [if_neg hval] at hp
    cases (Except.error.inj (congrArg Prod.snd hp))
  rw [if_pos hval] at hp
  simp only at hp
  set items := roundRobin workerCount (trials.zip metas).enum with hitems
  cases herr : (processTrials tf chunkSize overlap numChannel items 0).2.2 with
  | none =>
    rw [herr] at hp
    cases (congrArg Prod.snd hp)
  | some e =>
    rw [herr] at hp
    have hst : st =
        ⟨(processTrials tf chunkSize overlap numChannel items 0).1, false⟩ :=
      (congrArg Prod.fst hp).symm
    have he : e = PopError.transformError i off :=
      Except.error.inj (congrArg Prod.snd hp)
    subst he
    refine ⟨by rw [hst], ?_, ?_⟩
    · intro r hr
      rw [hst] at hr ⊢
      unfold Store.readRecord
      simp only
      rw [find?_clipId_self _ (processTrials_nodup tf chunkSize overlap numChannel items) r hr]
      rfl
    · obtain ⟨it, hit, hi, rest⟩ :=
        processTrials_error tf chunkSize overlap numChannel items 0 i off herr
      have hmem : it ∈ (trials.zip metas).enum :=
        (roundRobin_perm workerCount (trials.zip metas).enum).mem_iff.mp hit
      obtain ⟨i', t, m⟩ := it
      have hi' : i' = i := hi
      subst hi'
      exact ⟨t, m, hmem, rest⟩

/-- Witness for C9 at a concrete input: a transform that always fails,
one trial, sentinel chunk size. -/
theorem populate_transform_failure_witness :
    populate [[[1, 2]]] [[("subject", Val.vInt 1)]] (-1) 0 (-1)
        (some (fun _ => Except.error ())) 0 emptyStore =
      (emptyStore, Except.error (PopError.transformError 0 0)) ∧
    emptyStore.complete = false ∧
    (∀ r ∈ emptyStore.records, emptyStore.readRecord r.clipId = some (r.signal, r.label)) ∧
    ∃ t m, ((0 : Nat), (t, m)) ∈ ([[[1, 2]]].zip [[("subject", Val.vInt 1)]]).enum ∧
      ∃ chs, chunk t (-1) 0 (-1) = Except.ok chs ∧
        ∃ c ∈ chs, c.2.1 = 0 ∧
          applyOffline (some (fun _ => Except.error ())) c.1 = Except.error () := by
  have hp : populate [[[1, 2]]] [[("subject", Val.vInt 1)]] (-1) 0 (-1)
      (some (fun _ => Except.error ())) 0 emptyStore =
      (emptyStore, Except.error (PopError.transformError 0 0)) := rfl
  have h := populate_transform_failure [[[1, 2]]] [[("subject", Val.vInt 1)]]
    (-1) 0 (-1) (some (fun _ => Except.error ())) 0 emptyStore 0 0 hp
  exact ⟨hp, h⟩

/-! ## Worker-count independence of the store content -/

/-- The observable content of a Cache Record: its signal and its label
with the run-assigned clip-identifier field removed (clip identifiers
are allowed to differ between runs with different worker counts). -/
def CacheRecord.content (r : CacheRecord) : Signal × Record :=
  (r.signal, r.label.filter (fun kv => kv.1 != "clip_id"))

/-- The multiset of (signal, label) contents of a store. -/
def Store.contents (st : Store) : Multiset (Signal × Record) :=
  (st.records.map CacheRecord.content : List (Signal × Record))

/-- The content one successfully transformed chunk contributes,
independent of the clip-identifier counter. -/
def chunkContent (tf : Option (Signal → Except Unit Signal)) (meta : Record)
    (c : Signal × Nat × Nat) : Signal × Record :=
  ((match applyOffline tf c.1 with
    | Except.ok sig => sig
    | Except.error _ => []),
   ("start_at", Val.vInt (c.2.1 : Int)) :: ("end_at", Val.vInt (c.2.2 : Int)) ::
     meta.filter (fun kv => kv.1 != "clip_id"))

/-- The chunk contents one work item contributes. -/
def itemContents (tf : Option (Signal → Except Unit Signal))
    (chunkSize overlap numChannel : Int) (it : Nat × Signal × Record) :
    List (Signal × Record) :=
  match chunk it.2.1 chunkSize overlap numChannel with
  | Except.error _ => []
  | Except.ok chs => chs.map (chunkContent tf it.2.2)

/-- A work item processes cleanly: its trial chunks successfully and the
offline transform succeeds on every chunk. -/
def itemOk (tf : Option (Signal → Except Unit Signal))
    (chunkSize overlap numChannel : Int) (it : Nat × Signal × Record) : Prop :=
  ∃ chs, chunk it.2.1 chunkSize overlap numChannel = Except.ok chs ∧
    ∀ c ∈ chs, ∃ sig, applyOffline tf c.1 = Except.ok sig

/-- One trial's chunk processing succeeds exactly when the transform
succeeds on each of its chunks. -/
theorem processChunks_ok_iff (tf : Option (Signal → Except Unit Signal)) (ti : Nat)
    (meta : Record) :
    ∀ (chunks : List (Signal × Nat × Nat)) (counter : Nat),
      (processChunks tf ti meta chunks counter).2.2 = none ↔
        ∀ c ∈ chunks, ∃ sig, applyOffline tf c.1 = Except.ok sig := by
  intro chunks
  induction chunks with
  | nil => intro counter; simp [processChunks]
  | cons c rest ih =>
    intro counter
    cases h : applyOffline tf c.1 with
    | error e =>
      simp only [processChunks, h]
      constructor
      · intro hcontra; cases hcontra
      · intro hall
        obtain ⟨sig, hsig⟩ := hall c (List.mem_cons_self c rest)
        rw [h] at hsig
        cases hsig
    | ok sig =>
      simp only [processChunks, h]
      rw [ih (counter + 1)]
      constructor
      · intro hall c' hc'
        rcases List.mem_cons.mp hc' with hh | hh
        · exact hh ▸ ⟨sig, h⟩
        · exact hall c' hh
      · intro hall c' hc'
        exact hall c' (List.mem_cons_of_mem c hc')

/-- Under per-chunk success, the contents written for one trial are the
chunk contents in order, independent of the counter. -/
theorem processChunks_contents (tf : Option (Signal → Except Unit Signal)) (ti : Nat)
    (meta : Record) :
    ∀ (chunks : List (Signal × Nat × Nat)) (counter : Nat),
      (∀ c ∈ chunks, ∃ sig, applyOffline tf c.1 = Except.ok sig) →
      (processChunks tf ti meta chunks counter).1.map CacheRecord.content =
        chunks.map (chunkContent tf meta) := by
  intro chunks
  induction chunks with
  | nil => intro counter _; simp [processChunks]
  | cons c rest ih =>
    intro counter hall
    obtain ⟨sig, hsig⟩ := hall c (List.mem_cons_self c rest)
    simp only [processChunks, hsig, List.map_cons]
    congr 1
    · unfold CacheRecord.content chunkRecord chunkContent
      rw [hsig]
      simp [List.filter_cons]
    · exact ih (counter + 1) (fun c' hc' => hall c' (List.mem_cons_of_mem c hc'))

/-- A run succeeds exactly when every one of its work items processes
cleanly. -/
theorem processTrials_ok_iff (tf : Option (Signal → Except Unit Signal))
    (chunkSize overlap numChannel : Int) :
    ∀ (items : List (Nat × Signal × Record)) (counter : Nat),
      (processTrials tf chunkSize overlap numChannel items counter).2.2 = none ↔
        ∀ it ∈ items, itemOk tf chunkSize overlap numChannel it := by
  intro items
  induction items with
  | nil => intro counter; simp [processTrials]
  | cons it rest ih =>
    intro counter
    cases hc : chunk it.2.1 chunkSize overlap numChannel with
    | error e =>
      simp only [processTrials, hc]
      constructor
      · intro hcontra; cases hcontra
      · intro hall
        obtain ⟨chs, hchs, _⟩ := hall it (List.mem_cons_self it rest)
        rw [hc] at hchs
        cases hchs
    | ok chs =>
      cases herr : (processChunks tf it.1 it.2.2 chs counter).2.2 with
      | some e =>
        simp only [processTrials, hc, herr]
        constructor
        · intro hcontra; cases hcontra
        · intro hall
          obtain ⟨chs', hchs', hok'⟩ := hall it (List.mem_cons_self it rest)
          rw [hc] at hchs'
          obtain rfl : chs = chs' := Except.ok.inj hchs'
          rw [(processChunks_ok_iff tf it.1 it.2.2 chs counter).mpr hok'] at herr
          cases herr
      | none =>
        simp only [processTrials, hc, herr]
        rw [ih (processChunks tf it.1 it.2.2 chs counter).2.1]
        constructor
        · intro hall it' hit'
          rcases List.mem_cons.mp hit' with hh | hh
          · subst hh
            exact ⟨chs, hc, (processChunks_ok_iff tf it'.1 it'.2.2 chs counter).mp herr⟩
          · exact hall it' hh
        · intro hall it' hit'
          exact hall it' (List.mem_cons_of_mem it hit')

/-- Under per-item success, a run's written contents are the
concatenation of the per-item contents in work order, independent of the
counter. -/
theorem processTrials_contents (tf : Option (Signal → Except Unit Signal))
    (chunkSize overlap numChannel : Int) :
    ∀ (items : List (Nat × Signal × Record)) (counter : Nat),
      (∀ it ∈ items, itemOk tf chunkSize overlap numChannel it) →
      (processTrials tf chunkSize overlap numChannel items counter).1.map
          CacheRecord.content =
        (items.map (itemContents tf chunkSize overlap numChannel)).flatten := by
  intro items
  induction items with
  | nil => intro counter _; simp [processTrials]
  | cons it rest ih =>
    intro counter hall
    obtain ⟨chs, hc, hok⟩ := hall it (List.mem_cons_self it rest)
    have herr : (processChunks tf it.1 it.2.2 chs counter).2.2 = none :=
      (processChunks_ok_iff tf it.1 it.2.2 chs counter).mpr hok
    simp only [processTrials, hc, herr, List.map_cons, List.flatten_cons, List.map_append]
    rw [processChunks_contents tf it.1 it.2.2 chs counter hok,
      ih _ (fun it' hit' => hall it' (List.mem_cons_of_mem it hit'))]
    unfold itemContents
    rw [hc]

/-! ## Claim C8: single-threaded and 4-worker runs agree up to identifiers -/

/-- **C8**: on identical inputs and configuration, a populate run with
`worker_count = 0` and one with `worker_count = 4` produce the same
multiset of (signal, label) pairs — labels compared with the
run-assigned clip identifier removed, since only the order and the
identifier assignment may differ — and the same result; stated for runs
whose single-threaded execution succeeds. -/
theorem populate_worker_equiv (trials : List Signal) (metas : List Record)
    (chunkSize overlap numChannel : Int)
    (tf : Option (Signal → Except Unit Signal))
    (st0 st4 : Store) (r0 r4 : Except PopError Nat)
    (h0 : populate trials metas chunkSize overlap numChannel tf 0 emptyStore = (st0, r0))
    (h4 : populate trials metas chunkSize overlap numChannel tf 4 emptyStore = (st4, r4))
    (hok : ∃ n, r0 = Except.ok n) :
    st0.contents = st4.contents ∧ r0 = r4 := by
  obtain ⟨n, hn⟩ := hok
  subst hn
  unfold populate at h0 h4
  by_cases hlen : trials.length ≠ metas.length
  · rw [if_pos hlen] at h0
    cases (congrArg Prod.snd h0)
  rw [if_neg hlen] at h0 h4
  rw [if_neg (by intro hcontra; exact Bool.noConfusion hcontra)] at h0 h4
  by_cases hval : validParams trials chunkSize overlap numChannel = true
  swap
  · rw [if_neg hval] at h0
    cases (congrArg Prod.snd h0)
  rw [if_pos hval] at h0 h4
  simp only at h0 h4
  have hperm0 := roundRobin_perm 0 (trials.zip metas).enum
  have hperm4 := roundRobin_perm 4 (trials.zip metas).enum
  cases herr0 : (processTrials tf chunkSize overlap numChannel
      (roundRobin 0 (trials.zip metas).enum) 0).2.2 with
  | some e =>
    rw [herr0] at h0
    cases (congrArg Prod.snd h0)
  | none =>
    rw [herr0] at h0
    have hall0 : ∀ it ∈ roundRobin 0 (trials.zip metas).enum,
        itemOk tf chunkSize overlap numChannel it :=
      (processTrials_ok_iff tf chunkSize overlap numChannel _ 0).mp herr0
    have hallenum : ∀ it ∈ (trials.zip metas).enum,
        itemOk tf chunkSize overlap numChannel it :=
      fun it hit => hall0 it (hperm0.mem_iff.mpr hit)
    have hall4 : ∀ it ∈ roundRobin 4 (trials.zip metas).enum,
        itemOk tf chunkSize overlap numChannel it :=
      fun it hit => hallenum it (hperm4.mem_iff.mp hit)
    have herr4 : (processTrials tf chunkSize overlap numChannel
        (roundRobin 4 (trials.zip metas).enum) 0).2.2 = none :=
      (processTrials_ok_iff tf chunkSize overlap numChannel _ 0).mpr hall4
    rw [herr4] at h4
    have hst0 : st0 = ⟨(processTrials tf chunkSize overlap numChannel
        (roundRobin 0 (trials.zip metas).enum) 0).1, true⟩ :=
      (congrArg Prod.fst h0).symm
    have hst4 : st4 = ⟨(processTrials tf chunkSize overlap numChannel
        (roundRobin 4 (trials.zip metas).enum) 0).1, true⟩ :=
      (congrArg Prod.fst h4).symm
    have hcperm : List.Perm
        ((processTrials tf chunkSize overlap numChannel
          (roundRobin 0 (trials.zip metas).enum) 0).1.map CacheRecord.content)
        ((processTrials tf chunkSize overlap numChannel
          (roundRobin 4 (trials.zip metas).enum) 0).1.map CacheRecord.content) := by
      rw [processTrials_contents tf chunkSize overlap numChannel _ 0 hall0,
        processTrials_contents tf chunkSize overlap numChannel _ 0 hall4]
      exact List.Perm.flatten ((hperm0.trans hperm4.symm).map
        (itemContents tf chunkSize overlap numChannel))
    constructor
    · rw [hst0, hst4]
      unfold Store.contents
      exact Multiset.coe_eq_coe.mpr hcperm
    · have hlen04 : (processTrials tf chunkSize overlap numChannel
          (roundRobin 0 (trials.zip metas).enum) 0).1.length =
          (processTrials tf chunkSize overlap numChannel
            (roundRobin 4 (trials.zip metas).enum) 0).1.length := by
        have := hcperm.length_eq
        simpa using this
      have hr0 : Except.ok (α := Nat) (ε := PopError)
          (processTrials tf chunkSize overlap numChannel
            (roundRobin 0 (trials.zip metas).enum) 0).1.length = Except.ok n :=
        congrArg Prod.snd h0
      have hr4 : Except.ok (α := Nat) (ε := PopError)
          (processTrials tf chunkSize overlap numChannel
            (roundRobin 4 (trials.zip metas).enum) 0).1.length = r4 :=
        congrArg Prod.snd h4
      rw [← hr4, ← hlen04]
      exact hr0.symm

/-- Witness for C8 at a concrete input: two trials, sentinel chunk size,
no transform. -/
theorem populate_worker_equiv_witness :
    (populate [[[1, 2]], [[3, 4]]] [[("run", Val.vInt 1)], [("run", Val.vInt 2)]]
        (-1) 0 (-1) none 0 emptyStore).1.contents =
      (populate [[[1, 2]], [[3, 4]]] [[("run", Val.vInt 1)], [("run", Val.vInt 2)]]
        (-1) 0 (-1) none 4 emptyStore).1.contents ∧
    (populate [[[1, 2]], [[3, 4]]] [[("run", Val.vInt 1)], [("run", Val.vInt 2)]]
        (-1) 0 (-1) none 0 emptyStore).2 =
      (populate [[[1, 2]], [[3, 4]]] [[("run", Val.vInt 1)], [("run", Val.vInt 2)]]
        (-1) 0 (-1) none 4 emptyStore).2 :=
  populate_worker_equiv [[[1, 2]], [[3, 4]]]
    [[("run", Val.vInt 1)], [("run", Val.vInt 2)]] (-1) 0 (-1) none
    _ _ _ _ rfl rfl ⟨2, rfl⟩

/-! ## The dataset read path -/

/-- The read-path state a constructed `MNEDataset` holds: the ordered
info rows (one per Cache Record), the storage read function
`eeg_io.read_eeg`, and the two optional read-time transforms.
`BaseDataset` is not under `src/`; the `info` index and `readEeg` are
modelled from the spec's Dataset view (one row per Cache Record, random
access by clip identifier). -/
structure Dataset where
  info : List Record
  readEeg : String → Signal
  onlineTransform : Option (Signal → Signal)
  labelTransform : Option (Record → Val)

/-- `MNEDataset.__getitem__`, translated from the source
(`mne_dataset.py`): read the info row at `index`, read the EEG payload
stored under `str(info['clip_id'])`, then apply `online_transform` to
the signal and `label_transform` to the info record when provided. -/
def getItem (d : Dataset) (index : Nat) : Signal × (Record ⊕ Val) :=
  let info := d.info.getD index []
  let eegIndex := valToString ((lookupField info "clip_id").getD (Val.vStr ""))
  let eeg := d.readEeg eegIndex
  let signal := match d.onlineTransform with
    | some t => t eeg
    | none => eeg
  let label : Record ⊕ Val := match d.labelTransform with
    | some t => Sum.inr (t info)
    | none => Sum.inl info
  (signal, label)

/-- Dataset length: `len(self.info)`, one info row per Cache Record.
Modelled from the spec (`BaseDataset.__len__` is not under `src/`). -/
def datasetLen (d : Dataset) : Nat := d.info.length

/-- Modelled from the spec: the dataset view built at cache-open time —
one info row per Cache Record in store order, reads answered from the
store by clip identifier. -/
def datasetOf (st : Store) (onT : Option (Signal → Signal))
    (lbT : Option (Record → Val)) : Dataset :=
  { info := st.records.map (fun r => r.label)
    readEeg := fun k => ((st.records.find? (fun r => r.clipId == k)).map
      (fun r => r.signal)).getD []
    onlineTransform := onT
    labelTransform := lbT }

/-- The read-time signal transform as `__getitem__` applies it. -/
def applyOnline (onT : Option (Signal → Signal)) (s : Signal) : Signal :=
  match onT with
  | some t => t s
  | none => s

/-- The read-time label transform as `__getitem__` applies it. -/
def applyLabel (lbT : Option (Record → Val)) (r : Record) : Record ⊕ Val :=
  match lbT with
  | some t => Sum.inr (t r)
  | none => Sum.inl r

/-- Shared read-path correctness for a populated store: the dataset has
one position per Cache Record, and `__getitem__` at a valid index yields
the stored payload of that index's clip identifier under the online
transform, and the stored info record under the label transform; every
stored info row carries its record's clip identifier. -/
theorem populated_read (trials : List Signal) (metas : List Record)
    (chunkSize overlap numChannel : Int)
    (tf : Option (Signal → Except Unit Signal)) (workerCount : Nat)
    (st : Store) (n : Nat)
    (hp : populate trials metas chunkSize overlap numChannel tf workerCount emptyStore =
      (st, Except.ok n)) :
    st.records.length = n ∧
    ∀ (onT : Option (Signal → Signal)) (lbT : Option (Record → Val)),
      datasetLen (datasetOf st onT lbT) = st.records.length ∧
      ∀ (i : Nat) (hi : i < st.records.length),
        getItem (datasetOf st onT lbT) i =
          (applyOnline onT (st.records.get ⟨i, hi⟩).signal,
           applyLabel lbT (st.records.get ⟨i, hi⟩).label) ∧
        lookupField (st.records.get ⟨i, hi⟩).label "clip_id" =
          some (Val.vStr (st.records.get ⟨i, hi⟩).clipId) := by
  unfold populate at hp
  by_cases hlen : trials.length ≠ metas.length
  · rw [if_pos hlen] at hp
    cases (congrArg Prod.snd hp)
  rw [if_neg hlen] at hp
  rw [if_neg (by intro hcontra; exact Bool.noConfusion hcontra)] at hp
  by_cases hval : validParams trials chunkSize overlap numChannel = true
  swap
  · rw [if_neg hval] at hp
    cases (congrArg Prod.snd hp)
  rw [if_pos hval] at hp
  simp only at hp
  cases herr : (processTrials tf chunkSize overlap numChannel
      (roundRobin workerCount (trials.zip metas).enum) 0).2.2 with
  | some e =>
    rw [herr] at hp
    cases (congrArg Prod.snd hp)
  | none =>
    rw [herr] at hp
    have hst : st = ⟨(processTrials tf chunkSize overlap numChannel
        (roundRobin workerCount (trials.zip metas).enum) 0).1, true⟩ :=
      (congrArg Prod.fst hp).symm
    have hn : (processTrials tf chunkSize overlap numChannel
        (roundRobin workerCount (trials.zip metas).enum) 0).1.length = n :=
      Except.ok.inj (congrArg Prod.snd hp)
    have hnodup : (st.records.map (fun r => r.clipId)).Nodup := by
      rw [hst]
      exact processTrials_nodup tf chunkSize overlap numChannel _
    have hlabel : ∀ r ∈ st.records,
        ∃ rest, r.label = ("clip_id", Val.vStr r.clipId) :: rest := by
      rw [hst]
      exact processTrials_label tf chunkSize overlap numChannel _ 0
    refine ⟨by rw [hst]; exact hn, ?_⟩
    intro onT lbT
    refine ⟨by simp [datasetLen, datasetOf], ?_⟩
    intro i hi
    obtain ⟨rest, hr⟩ := hlabel (st.records.get ⟨i, hi⟩)
      (List.get_mem st.records i hi)
    have hlk : lookupField (st.records.get ⟨i, hi⟩).label "clip_id" =
        some (Val.vStr (st.records.get ⟨i, hi⟩).clipId) := by
      rw [hr]
      simp [lookupField]
    refine ⟨?_, hlk⟩
    have hinfo : (st.records.map (fun r => r.label)).getD i [] =
        (st.records.get ⟨i, hi⟩).label := by
      rw [List.getD_eq_getElem _ _ (by simpa using hi), List.getElem_map]
      rfl
    have hfind : st.records.find?
        (fun x => x.clipId == (st.records.get ⟨i, hi⟩).clipId) =
        some (st.records.get ⟨i, hi⟩) :=
      find?_clipId_self st.records hnodup _ (List.get_mem st.records i hi)
    unfold getItem datasetOf
    simp only
    rw [hinfo, hlk]
    simp only [Option.getD_some, valToString]
    rw [hfind]
    simp only [Option.map_some', Option.getD_some]
    rfl

/-! ## Claim C1: the read path after population -/

/-- **C1**: for every populated dataset and every valid integer index,
`__getitem__` returns the pair (signal, label) where the signal is the
stored EEG payload for that index's clip identifier with
`online_transform` applied when provided, and the label is the stored
info record with `label_transform` applied when provided; the dataset's
length equals the number of Cache Records in the store. -/
theorem getItem_spec (trials : List Signal) (metas : List Record)
    (chunkSize overlap numChannel : Int)
    (tf : Option (Signal → Except Unit Signal)) (workerCount : Nat)
    (onT : Option (Signal → Signal)) (lbT : Option (Record → Val))
    (st : Store) (n : Nat)
    (hp : populate trials metas chunkSize overlap numChannel tf workerCount emptyStore =
      (st, Except.ok n)) :
    datasetLen (datasetOf st onT lbT) = st.records.length ∧
    st.records.length = n ∧
    ∀ (i : Nat) (hi : i < st.records.length),
      getItem (datasetOf st onT lbT) i =
        (applyOnline onT (st.records.get ⟨i, hi⟩).signal,
         applyLabel lbT (st.records.get ⟨i, hi⟩).label) := by
  obtain ⟨h1, h2⟩ := populated_read trials metas chunkSize overlap numChannel tf
    workerCount st n hp
  exact ⟨(h2 onT lbT).1, h1, fun i hi => ((h2 onT lbT).2 i hi).1⟩

/-- Witness for C1 at a concrete input: one 1-channel 2-sample trial,
sentinel chunk size, identity-free transforms replaced by a channel-
reversing online transform and an event-selecting label transform. -/
theorem getItem_spec_witness :
    datasetLen (datasetOf (populate [[[1, 2]]] [[("event", Val.vInt 7)]]
        (-1) 0 (-1) none 0 emptyStore).1 (some List.reverse)
        (some (fun r => (lookupField r "event").getD (Val.vInt 0)))) =
      (populate [[[1, 2]]] [[("event", Val.vInt 7)]]
        (-1) 0 (-1) none 0 emptyStore).1.records.length ∧
    (populate [[[1, 2]]] [[("event", Val.vInt 7)]]
        (-1) 0 (-1) none 0 emptyStore).1.records.length = 1 ∧
    getItem (datasetOf (populate [[[1, 2]]] [[("event", Val.vInt 7)]]
        (-1) 0 (-1) none 0 emptyStore).1 (some List.reverse)
        (some (fun r => (lookupField r "event").getD (Val.vInt 0)))) 0 =
      (applyOnline (some List.reverse)
        ((populate [[[1, 2]]] [[("event", Val.vInt 7)]]
          (-1) 0 (-1) none 0 emptyStore).1.records.get ⟨0, by decide⟩).signal,
       applyLabel (some (fun r => (lookupField r "event").getD (Val.vInt 0)))
        ((populate [[[1, 2]]] [[("event", Val.vInt 7)]]
          (-1) 0 (-1) none 0 emptyStore).1.records.get ⟨0, by decide⟩).label) := by
  have hp : populate [[[1, 2]]] [[("event", Val.vInt 7)]] (-1) 0 (-1) none 0 emptyStore =
      ((populate [[[1, 2]]] [[("event", Val.vInt 7)]] (-1) 0 (-1) none 0 emptyStore).1,
        Except.ok 1) := rfl
  have h := getItem_spec [[[1, 2]]] [[("event", Val.vInt 7)]] (-1) 0 (-1) none 0
    (some List.reverse) (some (fun r => (lookupField r "event").getD (Val.vInt 0)))
    _ 1 hp
  exact ⟨h.1, h.2.1, h.2.2 0 (by decide)⟩

/-! ## Claim C10: the untransformed read path -/

/-- **C10**: for every valid index, when both `online_transform` and
`label_transform` are `None`, `__getitem__` returns the stored EEG
payload unchanged as the signal and the entire stored info record (the
full merged metadata mapping, which carries the `clip_id` field) as the
label — the label is never reduced to a scalar by default. -/
theorem getItem_default (trials : List Signal) (metas : List Record)
    (chunkSize overlap numChannel : Int)
    (tf : Option (Signal → Except Unit Signal)) (workerCount : Nat)
    (st : Store) (n : Nat)
    (hp : populate trials metas chunkSize overlap numChannel tf workerCount emptyStore =
      (st, Except.ok n)) :
    ∀ (i : Nat) (hi : i < st.records.length),
      getItem (datasetOf st none none) i =
        ((st.records.get ⟨i, hi⟩).signal, Sum.inl (st.records.get ⟨i, hi⟩).label) ∧
      lookupField (st.records.get ⟨i, hi⟩).label "clip_id" =
        some (Val.vStr (st.records.get ⟨i, hi⟩).clipId) := by
  obtain ⟨_, h2⟩ := populated_read trials metas chunkSize overlap numChannel tf
    workerCount st n hp
  exact fun i hi => (h2 none none).2 i hi

/-- Witness for C10 at a concrete input: one 1-channel 2-sample trial,
sentinel chunk size, no transforms. -/
theorem getItem_default_witness :
    getItem (datasetOf (populate [[[3, 4]]] [[("event", Val.vInt 9)]]
        (-1) 0 (-1) none 0 emptyStore).1 none none) 0 =
      (((populate [[[3, 4]]] [[("event", Val.vInt 9)]]
          (-1) 0 (-1) none 0 emptyStore).1.records.get ⟨0, by decide⟩).signal,
       Sum.inl ((populate [[[3, 4]]] [[("event", Val.vInt 9)]]
          (-1) 0 (-1) none 0 emptyStore).1.records.get ⟨0, by decide⟩).label) ∧
    lookupField ((populate [[[3, 4]]] [[("event", Val.vInt 9)]]
        (-1) 0 (-1) none 0 emptyStore).1.records.get ⟨0, by decide⟩).label "clip_id" =
      some (Val.vStr ((populate [[[3, 4]]] [[("event", Val.vInt 9)]]
        (-1) 0 (-1) none 0 emptyStore).1.records.get ⟨0, by decide⟩).clipId) := by
  have hp : populate [[[3, 4]]] [[("event", Val.vInt 9)]] (-1) 0 (-1) none 0 emptyStore =
      ((populate [[[3, 4]]] [[("event", Val.vInt 9)]] (-1) 0 (-1) none 0 emptyStore).1,
        Except.ok 1) := rfl
  exact getItem_default [[[3, 4]]] [[("event", Val.vInt 9)]] (-1) 0 (-1) none 0 _ 1 hp
    0 (by decide)

end TorchEEG
